import Mathlib

/-!
Verification of the Maze_Runner core: a shallow embedding of `runner.py` and
`maze.py` (the Runner state machine, the Maze wall model, the wall-following
exploration engine and the loop-removal path simplifier), with theorems about
the properties the design documentation states.

Conventions of the embedding:
* Python `int` is `Int`.
* The runner's orientation string, restricted to its four valid values
  "N", "E", "S", "W", is the inductive type `Orientation`.
* Python `set` is `Finset`; the Python `dict` mapping a coordinate to its
  first output index in the simplifier is an association list whose keys are
  inserted at most once.
* `Maze.move` can raise `ValueError` (inside `go_straight`); fallible
  operations return `Option`, `none` standing for the raised error.
* The unbounded `while` loop of `Maze.explore` is given explicit fuel; the
  goal test is checked before the fuel so a run that starts at the goal
  needs no fuel, exactly as the Python loop body is never entered then.
-/

namespace MazeRunner

/-- Orientation of the runner: the "orientation" field of the Runner dict of
`runner.py`, restricted to its four valid values. -/
inductive Orientation where
  | N
  | E
  | S
  | W
deriving DecidableEq, Repr

/-- The Runner TypedDict of `runner.py`: x, y coordinates and an orientation. -/
structure Runner where
  x : Int
  y : Int
  orientation : Orientation
deriving DecidableEq, Repr

/-- `create_runner` of `runner.py`. -/
def create_runner (x y : Int) (orientation : Orientation) : Runner :=
  { x := x, y := y, orientation := orientation }

/-- `get_x` of `runner.py`. -/
def get_x (runner : Runner) : Int := runner.x

/-- `get_y` of `runner.py`. -/
def get_y (runner : Runner) : Int := runner.y

/-- `get_orientation` of `runner.py`. -/
def get_orientation (runner : Runner) : Orientation := runner.orientation

/-- The tuple `orientations = ("N", "E", "S", "W")` of `orientation_options`. -/
def orientationTuple : List Orientation :=
  [Orientation.N, Orientation.E, Orientation.S, Orientation.W]

/-- `orientations.index(current_orientation)` of `orientation_options`. -/
def orientationIndex : Orientation → Nat
  | Orientation.N => 0
  | Orientation.E => 1
  | Orientation.S => 2
  | Orientation.W => 3

/-- Indexing into `orientations`; the index is always reduced mod 4 by the
callers (Python's `[index - 1]` wraps to the last element, `[(index + 1) % 4]`
is explicit in the source). -/
def orientationAt (i : Nat) : Orientation :=
  orientationTuple.getD (i % 4) Orientation.N

/-- `orientation_options` of `runner.py`: (orientation to the left, current
orientation, orientation to the right). -/
def orientation_options (runner : Runner) : Orientation × Orientation × Orientation :=
  let i := orientationIndex (get_orientation runner)
  (orientationAt ((i + 3) % 4), get_orientation runner, orientationAt ((i + 1) % 4))

/-- `turn` of `runner.py`: two sequential `if`s on the direction string, each
writing the corresponding entry of `orientation_options`. -/
def turn (runner : Runner) (direction : String) : Runner :=
  let new_orientations := orientation_options runner
  let r1 :=
    if direction = "Left" then { runner with orientation := new_orientations.1 }
    else runner
  if direction = "Right" then { r1 with orientation := new_orientations.2.2 }
  else r1

/-- `forward` of `runner.py`: one cell in the direction of the orientation. -/
def forward (runner : Runner) : Runner :=
  match get_orientation runner with
  | Orientation.N => { runner with y := runner.y + 1 }
  | Orientation.S => { runner with y := runner.y - 1 }
  | Orientation.E => { runner with x := runner.x + 1 }
  | Orientation.W => { runner with x := runner.x - 1 }

/-- The Maze class of `maze.py`: wall sets, the exploration path and the
exploration data table (its first row is the header written in `__init__`).
The rendering settings, previous-runner cache and run id play no part in the
algorithms and are omitted. -/
structure Maze where
  width : Int
  height : Int
  h_walls : Finset (Int × Int)
  v_walls : Finset (Int × Int)
  path : List (Int × Int)
  exploration_data : List (String × String × String × String)
deriving DecidableEq

/-- `Maze.__init__`: stores the dimensions, adds the outer vertical walls
`(0, i)` and `(width, i)` for `i in range(height)` and the outer horizontal
walls `(i, 0)` and `(i, height)` for `i in range(width)`, starts with an
empty path and the header row of the exploration data. -/
def mkMaze (width height : Int) : Maze where
  width := width
  height := height
  h_walls :=
    ((Finset.range width.toNat).image fun i : Nat => ((i : Int), (0 : Int))) ∪
      ((Finset.range width.toNat).image fun i : Nat => ((i : Int), height))
  v_walls :=
    ((Finset.range height.toNat).image fun i : Nat => ((0 : Int), (i : Int))) ∪
      ((Finset.range height.toNat).image fun i : Nat => (width, (i : Int)))
  path := []
  exploration_data := [("Step", "x-coordinate", "y-coordinate", "Actions")]

/-- `Maze.add_horizontal_wall`: bounds-checked insertion into `h_walls`. -/
def add_horizontal_wall (m : Maze) (x_coordinate horizontal_line : Int) : Maze :=
  if 0 ≤ x_coordinate ∧ x_coordinate < m.width ∧
      1 ≤ horizontal_line ∧ horizontal_line < m.height then
    { m with h_walls := insert (x_coordinate, horizontal_line) m.h_walls }
  else m

/-- `Maze.add_vertical_wall`: bounds-checked insertion into `v_walls` (the
stored pair is `(vertical_line, y_coordinate)`). -/
def add_vertical_wall (m : Maze) (y_coordinate vertical_line : Int) : Maze :=
  if 0 ≤ y_coordinate ∧ y_coordinate < m.height ∧
      1 ≤ vertical_line ∧ vertical_line < m.width then
    { m with v_walls := insert (vertical_line, y_coordinate) m.v_walls }
  else m

/-- `Maze.get_walls`: the (north, east, south, west) wall presence tuple at a
coordinate. -/
def get_walls (m : Maze) (x_coordinate y_coordinate : Int) :
    Bool × Bool × Bool × Bool :=
  (decide ((x_coordinate, y_coordinate + 1) ∈ m.h_walls),
   decide ((x_coordinate + 1, y_coordinate) ∈ m.v_walls),
   decide ((x_coordinate, y_coordinate) ∈ m.h_walls),
   decide ((x_coordinate, y_coordinate) ∈ m.v_walls))

/-- The `wall_num` selected by `sense_walls` for each absolute orientation:
0 for N, 2 for S, 1 for E, 3 for W. -/
def wall_num_of : Orientation → Nat
  | Orientation.N => 0
  | Orientation.S => 2
  | Orientation.E => 1
  | Orientation.W => 3

/-- `walls[wall_num]` of `sense_walls`: indexing the four-tuple of
`get_walls`. -/
def wall_get (walls : Bool × Bool × Bool × Bool) : Nat → Bool
  | 0 => walls.1
  | 1 => walls.2.1
  | 2 => walls.2.2.1
  | _ => walls.2.2.2

/-- `Maze.sense_walls`: for each of the three entries of
`orientation_options` (left, current, right) look up the absolute wall flag
of that orientation, giving (left wall, wall in front, right wall). -/
def sense_walls (m : Maze) (runner : Runner) : Bool × Bool × Bool :=
  let walls := get_walls m (get_x runner) (get_y runner)
  let opts := orientation_options runner
  (wall_get walls (wall_num_of opts.1),
   wall_get walls (wall_num_of opts.2.1),
   wall_get walls (wall_num_of opts.2.2))

/-- `Maze.go_straight`: advance if there is no wall in front, otherwise raise
`ValueError` (modelled as `none`). -/
def go_straight (m : Maze) (runner : Runner) : Option Runner :=
  if (sense_walls m runner).2.1 = false then some (forward runner)
  else none

/-- `Maze.move`: the left-hug decision. The pre-move coordinate the source
stashes in `prev_runner` is exactly `(get_x runner, get_y runner)` at entry,
which `explore` reads back; the embedding passes it directly there. -/
def move (m : Maze) (runner : Runner) : Option (Runner × String) :=
  let sensed_walls := sense_walls m runner
  if sensed_walls.1 = false then
    (go_straight m (turn runner "Left")).map fun r1 => (r1, "LF")
  else if sensed_walls.2.1 = false then
    (go_straight m runner).map fun r1 => (r1, "F")
  else if sensed_walls.2.2 = false then
    (go_straight m (turn runner "Right")).map fun r1 => (r1, "RF")
  else
    (go_straight m (turn (turn runner "Left") "Left")).map fun r1 => (r1, "LLF")

/-- The `while` loop of `Maze.explore`, with explicit fuel. Each iteration
appends the current coordinate to the path, moves, appends the move record to
the exploration data and accumulates the action string; on reaching the goal
the final coordinate is appended and the actions are returned. The goal test
comes before the fuel so that a run already at the goal needs none. -/
def exploreAux (goal : Int × Int) :
    Nat → Maze → Runner → Nat → String → Option (Maze × Runner × String)
  | 0, m, runner, _, actions =>
    if (get_x runner, get_y runner) = goal then
      some ({ m with path := m.path ++ [(get_x runner, get_y runner)] }, runner, actions)
    else none
  | fuel + 1, m, runner, num, actions =>
    if (get_x runner, get_y runner) = goal then
      some ({ m with path := m.path ++ [(get_x runner, get_y runner)] }, runner, actions)
    else
      let m1 := { m with path := m.path ++ [(get_x runner, get_y runner)] }
      match move m1 runner with
      | none => none
      | some (r1, action) =>
        exploreAux goal fuel
          { m1 with
            exploration_data := m1.exploration_data ++
              [(toString (num + 1), toString (get_x runner), toString (get_y runner),
                action)] }
          r1 (num + 1) (actions ++ action)

/-- `Maze.explore`: run the loop from step 0 with an empty action string. -/
def explore (m : Maze) (runner : Runner) (goal : Int × Int) (fuel : Nat) :
    Option (Maze × Runner × String) :=
  exploreAux goal fuel m runner 0 ""

/-- Lookup in the `visited` dictionary of `Maze.shortest_path`. Keys are
inserted at most once, so association-list shadowing never occurs. -/
def lookupFirst (visited : List ((Int × Int) × Nat)) (p : Int × Int) : Option Nat :=
  match visited with
  | [] => none
  | (q, k) :: rest => if q = p then some k else lookupFirst rest p

/-- The loop-removal pass of `Maze.shortest_path`: a seen coordinate at first
output index `loop_start` truncates the output to length `loop_start + 1`
and leaves `visited` untouched; an unseen coordinate is appended and recorded
at its output index (`len(direct_path) - 1` after the append, i.e. the length
before it). -/
def simplifyAux :
    List (Int × Int) → List (Int × Int) → List ((Int × Int) × Nat) → List (Int × Int)
  | [], direct_path, _ => direct_path
  | position :: rest, direct_path, visited =>
    match lookupFirst visited position with
    | some loop_start => simplifyAux rest (direct_path.take (loop_start + 1)) visited
    | none =>
      simplifyAux rest (direct_path ++ [position]) ((position, direct_path.length) :: visited)

/-- The whole simplification pass of `Maze.shortest_path`, from an empty
output and an empty dictionary. -/
def simplify (trace : List (Int × Int)) : List (Int × Int) :=
  simplifyAux trace [] []

/-- `Maze.shortest_path`: defaults the start to (0, 0) and the goal to
(width - 1, height - 1), explores with a fresh runner facing N, then runs the
loop-removal pass over the accumulated `path` of the maze. -/
def shortest_path (m : Maze) (starting goal : Option (Int × Int)) (fuel : Nat) :
    Option (Maze × List (Int × Int)) :=
  let s := starting.getD (0, 0)
  let g := goal.getD (m.width - 1, m.height - 1)
  let runner := create_runner s.1 s.2 Orientation.N
  match explore m runner g fuel with
  | none => none
  | some (m1, _, _) => some (m1, simplify m1.path)

/-! ### Helper lemmas -/

/-- The front sense of the left-turned runner is the left sense of the
runner: turning left keeps the position, and the rotation table shifts by
one step. -/
lemma sense_turn_left (m : Maze) (r : Runner) :
    (sense_walls m (turn r "Left")).2.1 = (sense_walls m r).1 := by
  obtain ⟨x, y, o⟩ := r
  cases o <;> rfl

/-- The front sense of the right-turned runner is the right sense of the
runner. -/
lemma sense_turn_right (m : Maze) (r : Runner) :
    (sense_walls m (turn r "Right")).2.1 = (sense_walls m r).2.2 := by
  obtain ⟨x, y, o⟩ := r
  cases o <;> rfl

/-- Branch-by-branch characterization of `move`: the decision is read off
the sensed (left, front, right) triple, and the turn-around branch advances
exactly when the cell behind (the front of the twice-left-turned runner) is
open; otherwise `go_straight` raises and `move` yields `none`. -/
lemma move_eq (m : Maze) (r : Runner) :
    move m r =
      (if (sense_walls m r).1 = false then some (forward (turn r "Left"), "LF")
       else if (sense_walls m r).2.1 = false then some (forward r, "F")
       else if (sense_walls m r).2.2 = false then
         some (forward (turn r "Right"), "RF")
       else if (sense_walls m (turn (turn r "Left") "Left")).2.1 = false then
         some (forward (turn (turn r "Left") "Left"), "LLF")
       else none) := by
  by_cases h1 : (sense_walls m r).1 = false <;>
    by_cases h2 : (sense_walls m r).2.1 = false <;>
      by_cases h3 : (sense_walls m r).2.2 = false <;>
        by_cases h4 : (sense_walls m (turn (turn r "Left") "Left")).2.1 = false <;>
          simp [move, go_straight, sense_turn_left, sense_turn_right, h1, h2, h3, h4]

/-! ### Claim theorems -/

/-- C2: for every coordinate and orientation, `get_walls` returns
(north, east, south, west) read off the wall sets — north iff a horizontal
wall at (x, y+1), south iff at (x, y), east iff a vertical wall at (x+1, y),
west iff at (x, y) — and `sense_walls` is the rotation of those absolute
flags into the runner's frame: N gives (west, north, east), E gives
(north, east, south), S gives (east, south, west), W gives
(south, west, north). -/
theorem C2_walls_and_sense (m : Maze) (r : Runner) :
    get_walls m r.x r.y =
      (decide ((r.x, r.y + 1) ∈ m.h_walls), decide ((r.x + 1, r.y) ∈ m.v_walls),
       decide ((r.x, r.y) ∈ m.h_walls), decide ((r.x, r.y) ∈ m.v_walls)) ∧
    sense_walls m r =
      (match r.orientation with
       | Orientation.N =>
         ((get_walls m r.x r.y).2.2.2, (get_walls m r.x r.y).1, (get_walls m r.x r.y).2.1)
       | Orientation.E =>
         ((get_walls m r.x r.y).1, (get_walls m r.x r.y).2.1, (get_walls m r.x r.y).2.2.1)
       | Orientation.S =>
         ((get_walls m r.x r.y).2.1, (get_walls m r.x r.y).2.2.1, (get_walls m r.x r.y).2.2.2)
       | Orientation.W =>
         ((get_walls m r.x r.y).2.2.1, (get_walls m r.x r.y).2.2.2, (get_walls m r.x r.y).1)) := by
  obtain ⟨x, y, o⟩ := r
  cases o <;> refine ⟨rfl, ?_⟩ <;>
    simp [sense_walls, get_x, get_y, orientation_options, get_orientation,
      orientationIndex, orientationAt, orientationTuple, wall_num_of, wall_get]

/-- C8: `forward` moves the position exactly one cell in the direction of the
orientation without changing the orientation; `turn` with "Left" or "Right"
rotates the orientation one step along N→E→S→W→N (Left the predecessor,
Right the successor) without changing the position, and a left turn followed
by a right turn restores the runner (and vice versa). -/
theorem C8_runner_ops (r : Runner) :
    (forward r).orientation = r.orientation ∧
    ((forward r).x, (forward r).y) =
      (match r.orientation with
       | Orientation.N => (r.x, r.y + 1)
       | Orientation.S => (r.x, r.y - 1)
       | Orientation.E => (r.x + 1, r.y)
       | Orientation.W => (r.x - 1, r.y)) ∧
    ((turn r "Left").x = r.x ∧ (turn r "Left").y = r.y) ∧
    ((turn r "Right").x = r.x ∧ (turn r "Right").y = r.y) ∧
    (turn r "Left").orientation =
      (match r.orientation with
       | Orientation.N => Orientation.W
       | Orientation.E => Orientation.N
       | Orientation.S => Orientation.E
       | Orientation.W => Orientation.S) ∧
    (turn r "Right").orientation =
      (match r.orientation with
       | Orientation.N => Orientation.E
       | Orientation.E => Orientation.S
       | Orientation.S => Orientation.W
       | Orientation.W => Orientation.N) ∧
    turn (turn r "Left") "Right" = r ∧
    turn (turn r "Right") "Left" = r := by
  obtain ⟨x, y, o⟩ := r
  cases o <;>
    simp [forward, turn, orientation_options, get_orientation, orientationIndex,
      orientationAt, orientationTuple]

/-- C1 counterexample: in the 1×1 maze every side of the runner's cell is a
boundary wall, so all three sensed walls are present, yet `move` does not
return the action "LLF" — the attempted advance after the 180° turn raises
`ValueError` (modelled as `none`). -/
theorem C1_counterexample :
    sense_walls (mkMaze 1 1) (create_runner 0 0 Orientation.N) = (true, true, true) ∧
    (move (mkMaze 1 1) (create_runner 0 0 Orientation.N)).map Prod.snd ≠ some "LLF" := by
  decide

/-- C1 (amended): `move` follows the fixed priority on the sensed
(left, front, right) walls — no left wall: turn left and advance, "LF"; else
no front wall: advance, "F"; else no right wall: turn right and advance,
"RF"; else turn 180° and advance, "LLF", provided the cell behind is open —
and when all four sides are walled the advance raises instead of returning.
Whenever `move` returns an action it is exactly one of the four strings. -/
theorem C1_move_priority (m : Maze) (r : Runner) :
    move m r =
      (if (sense_walls m r).1 = false then some (forward (turn r "Left"), "LF")
       else if (sense_walls m r).2.1 = false then some (forward r, "F")
       else if (sense_walls m r).2.2 = false then
         some (forward (turn r "Right"), "RF")
       else if (sense_walls m (turn (turn r "Left") "Left")).2.1 = false then
         some (forward (turn (turn r "Left") "Left"), "LLF")
       else none) ∧
    (move m r).map Prod.snd ∈
      [none, some "LF", some "F", some "RF", some "LLF"] := by
  refine ⟨move_eq m r, ?_⟩
  rw [move_eq m r]
  by_cases h1 : (sense_walls m r).1 = false <;>
    by_cases h2 : (sense_walls m r).2.1 = false <;>
      by_cases h3 : (sense_walls m r).2.2 = false <;>
        by_cases h4 : (sense_walls m (turn (turn r "Left") "Left")).2.1 = false <;>
          simp [h1, h2, h3, h4]

/-- C5 counterexample: in the 1×1 maze the runner's cell is walled on all
four sides; `move` reaches the turn-around branch and the wall-ahead error
branch of `go_straight` fires — the call raises (returns `none`) instead of
advancing. -/
theorem C5_counterexample :
    move (mkMaze 1 1) (create_runner 0 0 Orientation.N) = none ∧
    go_straight (mkMaze 1 1)
      (turn (turn (create_runner 0 0 Orientation.N) "Left") "Left") = none := by
  decide

/-- C5 (amended): `move` never advances the runner into a wall.
`go_straight` either advances through a sensed-open front or raises, so the
error branch is unreachable from the "LF", "F" and "RF" branches, which
advance only after sensing the chosen side open; it is reachable from the
"LLF" branch exactly when the cell behind is also walled, i.e. `move` raises
precisely when all four sides of the runner's cell carry walls. -/
theorem C5_no_advance_into_wall (m : Maze) (r : Runner) :
    (move m r = none ↔
      sense_walls m r = (true, true, true) ∧
        (sense_walls m (turn (turn r "Left") "Left")).2.1 = true) ∧
    (∀ r1 : Runner, go_straight m r1 = some (forward r1) ∨ go_straight m r1 = none) ∧
    (∀ r1 r2 : Runner, go_straight m r1 = some r2 → (sense_walls m r1).2.1 = false) := by
  refine ⟨?_, ?_, ?_⟩
  · rw [move_eq m r]
    rcases hs : sense_walls m r with ⟨a, b, c⟩
    by_cases h4 : (sense_walls m (turn (turn r "Left") "Left")).2.1 = false <;>
      cases a <;> cases b <;> cases c <;> simp_all
  · intro r1
    unfold go_straight
    split
    · exact Or.inl rfl
    · exact Or.inr rfl
  · intro r1 r2 h
    unfold go_straight at h
    by_cases hw : (sense_walls m r1).2.1 = false
    · exact hw
    · rw [if_neg hw] at h
      exact absurd h (by simp)

/-! ### Simplifier lemmas -/

/-- When every coordinate of the remaining trace is fresh (absent from the
dictionary) and the trace has no repeats, the pass appends the whole trace. -/
lemma simplifyAux_fresh :
    ∀ (trace direct : List (Int × Int)) (visited : List ((Int × Int) × Nat)),
      trace.Nodup → (∀ q ∈ trace, lookupFirst visited q = none) →
      simplifyAux trace direct visited = direct ++ trace := by
  intro trace
  induction trace with
  | nil => intro direct visited _ _; simp [simplifyAux]
  | cons p rest ih =>
    intro direct visited hnd hfresh
    have hp : lookupFirst visited p = none := hfresh p (by simp)
    simp only [simplifyAux, hp]
    rw [ih (direct ++ [p]) ((p, direct.length) :: visited)
      (List.nodup_cons.mp hnd).2 ?_]
    · simp
    · intro q hq
      have hpq : p ≠ q := fun h => (List.nodup_cons.mp hnd).1 (h ▸ hq)
      show lookupFirst ((p, direct.length) :: visited) q = none
      simp only [lookupFirst, if_neg hpq]
      exact hfresh q (List.mem_cons_of_mem _ hq)

/-- Invariant of the pass: when the output so far has no repeats and each of
its coordinates is a key of the dictionary, the final output has no repeats
(a coordinate is appended only when it is not yet a key, and keys are never
removed, so each coordinate is appended at most once). -/
lemma simplifyAux_nodup :
    ∀ (trace direct : List (Int × Int)) (visited : List ((Int × Int) × Nat)),
      direct.Nodup → (∀ q ∈ direct, lookupFirst visited q ≠ none) →
      (simplifyAux trace direct visited).Nodup := by
  intro trace
  induction trace with
  | nil => intro direct visited hd _; simpa [simplifyAux] using hd
  | cons p rest ih =>
    intro direct visited hd hinv
    cases hp : lookupFirst visited p with
    | some k =>
      simp only [simplifyAux, hp]
      refine ih _ _ (List.Nodup.sublist (List.take_sublist _ _) hd) ?_
      intro q hq
      exact hinv q ((List.take_sublist _ _).mem hq)
    | none =>
      simp only [simplifyAux, hp]
      have hpd : p ∉ direct := fun hmem => hinv p hmem hp
      refine ih _ _ ?_ ?_
      · exact List.nodup_append.mpr
          ⟨hd, List.nodup_singleton p, fun a ha hb => by
            simp only [List.mem_singleton] at hb
            exact hpd (hb ▸ ha)⟩
      · intro q hq
        show lookupFirst ((p, direct.length) :: visited) q ≠ none
        rcases List.mem_append.mp hq with h | h
        · by_cases hpq : p = q
          · simp [lookupFirst, hpq]
          · simp only [lookupFirst, if_neg hpq]
            exact hinv q h
        · simp only [List.mem_singleton] at h
          subst h
          simp [lookupFirst]

/-- Invariant of the pass: the head of a non-empty output survives, because a
truncation keeps at least one element and an append changes no head. -/
lemma simplifyAux_head :
    ∀ (trace direct : List (Int × Int)) (visited : List ((Int × Int) × Nat)),
      direct ≠ [] → (simplifyAux trace direct visited).head? = direct.head? := by
  intro trace
  induction trace with
  | nil => intro direct visited _; simp [simplifyAux]
  | cons p rest ih =>
    intro direct visited hne
    obtain ⟨d, ds, rfl⟩ := List.exists_cons_of_ne_nil hne
    cases hp : lookupFirst visited p with
    | some k =>
      simp only [simplifyAux, hp, List.take_succ_cons]
      rw [ih _ _ (by simp)]
      simp
    | none =>
      simp only [simplifyAux, hp, List.cons_append]
      rw [ih _ _ (by simp)]
      simp

/-- A final coordinate that occurs nowhere earlier and is no key of the
dictionary is appended last: the pass commutes with appending it. -/
lemma simplifyAux_concat (z : Int × Int) :
    ∀ (trace direct : List (Int × Int)) (visited : List ((Int × Int) × Nat)),
      z ∉ trace → lookupFirst visited z = none →
      simplifyAux (trace ++ [z]) direct visited =
        simplifyAux trace direct visited ++ [z] := by
  intro trace
  induction trace with
  | nil =>
    intro direct visited _ hz
    simp [simplifyAux, hz]
  | cons p rest ih =>
    intro direct visited hzt hz
    have hpz : p ≠ z := fun h => hzt (by simp [h])
    cases hp : lookupFirst visited p with
    | some k =>
      simp only [List.cons_append, simplifyAux, hp]
      exact ih _ _ (fun h => hzt (List.mem_cons_of_mem _ h)) hz
    | none =>
      simp only [List.cons_append, simplifyAux, hp]
      refine ih _ _ (fun h => hzt (List.mem_cons_of_mem _ h)) ?_
      show lookupFirst ((p, direct.length) :: visited) z = none
      simp only [lookupFirst, if_neg hpz]
      exact hz

/-- The simplified trace never repeats a coordinate. -/
lemma simplify_nodup (t : List (Int × Int)) : (simplify t).Nodup :=
  simplifyAux_nodup t [] [] List.nodup_nil (by intro q hq; cases hq)

/-- On a trace with no repeats the pass is the identity. -/
lemma simplify_of_nodup (t : List (Int × Int)) (h : t.Nodup) : simplify t = t := by
  unfold simplify
  rw [simplifyAux_fresh t [] [] h (fun q _ => rfl)]
  simp

/-- The simplified trace starts at the trace's first coordinate. -/
lemma simplify_head (p : Int × Int) (t : List (Int × Int)) :
    (simplify (p :: t)).head? = some p := by
  unfold simplify
  simp only [simplifyAux, lookupFirst]
  rw [simplifyAux_head t ([] ++ [p]) _ (by simp)]
  simp

/-- C3: the simplifier scans left to right keeping the first-occurrence index
of each coordinate authoritative — a revisit truncates the output back to
length k+1 where k is the recorded first-occurrence output index, and the
index is never re-recorded. On the trace [A, B, C, B, D] of pairwise distinct
coordinates the output is [A, B, D]. -/
theorem C3_first_occurrence (a b c d : Int × Int)
    (hab : a ≠ b) (hac : a ≠ c) (had : a ≠ d) (hbc : b ≠ c) (hbd : b ≠ d)
    (hcd : c ≠ d) :
    simplify [a, b, c, b, d] = [a, b, d] := by
  simp [simplify, simplifyAux, lookupFirst, hab, hac, had, hbc, hbd, hcd,
    hab.symm, hac.symm, had.symm, hbc.symm, hbd.symm, hcd.symm]

/-- C3 witness: the concrete trace [(0,0), (1,0), (2,0), (1,0), (3,0)]
simplifies to [(0,0), (1,0), (3,0)]. -/
theorem C3_witness :
    simplify [((0 : Int), (0 : Int)), (1, 0), (2, 0), (1, 0), (3, 0)] =
      [(0, 0), (1, 0), (3, 0)] :=
  C3_first_occurrence (0, 0) (1, 0) (2, 0) (3, 0) (by decide) (by decide)
    (by decide) (by decide) (by decide) (by decide)

/-- C4 counterexample: on the trace [(0,0), (1,0), (2,0), (1,0), (2,0)] —
whose final coordinate reappears after a truncated loop with a stale
recorded index — the simplifier returns [(0,0), (1,0)], whose last element
differs from the last element of the input, so the output is not a sequence
from start to goal of the input. -/
theorem C4_counterexample :
    simplify [((0 : Int), (0 : Int)), (1, 0), (2, 0), (1, 0), (2, 0)] =
      [(0, 0), (1, 0)] ∧
    ([((0 : Int), (0 : Int)), (1, 0), (2, 0), (1, 0), (2, 0)]).getLast? =
      some (2, 0) ∧
    (simplify [((0 : Int), (0 : Int)), (1, 0), (2, 0), (1, 0), (2, 0)]).getLast? ≠
      ([((0 : Int), (0 : Int)), (1, 0), (2, 0), (1, 0), (2, 0)]).getLast? := by
  decide

/-- C4 (amended): for every non-empty input trace the simplifier's output
contains no repeated coordinate and its first element is the first element
of the input; and whenever the input's last coordinate occurs nowhere
earlier in the trace — as holds for every trace the exploration engine
produces, since exploration stops on first reaching the goal — the output's
last element equals the input's last element. -/
theorem C4_loop_free_endpoints (p z : Int × Int) (t s : List (Int × Int))
    (hz : z ∉ s) :
    (simplify (p :: t)).Nodup ∧ (simplify (p :: t)).head? = some p ∧
    (simplify (s ++ [z])).getLast? = some z := by
  refine ⟨simplify_nodup _, simplify_head p t, ?_⟩
  unfold simplify
  rw [simplifyAux_concat z s [] [] hz rfl]
  simp

/-- C4 witness: on the concrete loop-free trace [(0,0), (1,0)] the output has
no repeats, starts at (0,0) and ends at (1,0). -/
theorem C4_witness :
    (simplify [((0 : Int), (0 : Int)), (1, 0)]).Nodup ∧
    (simplify [((0 : Int), (0 : Int)), (1, 0)]).head? = some (0, 0) ∧
    (simplify [((0 : Int), (0 : Int)), (1, 0)]).getLast? = some (1, 0) :=
  C4_loop_free_endpoints (0, 0) (1, 0) [(1, 0)] [(0, 0)] (by decide)

/-- C6: the simplifier is the identity on every trace with no repeated
coordinate, and is idempotent on every trace: its output never repeats a
coordinate, so a second pass returns it unchanged. -/
theorem C6_identity_idempotent (t : List (Int × Int)) :
    (t.Nodup → simplify t = t) ∧ simplify (simplify t) = simplify t :=
  ⟨fun h => simplify_of_nodup t h, simplify_of_nodup _ (simplify_nodup t)⟩

/-! ### Exploration lemmas -/

/-- Chaining two appends: whatever extends an extension extends the base. -/
lemma append_chain {α : Type} {u xs v ys : List α} (h : u = (xs ++ v) ++ ys) :
    ∃ tl, u = xs ++ tl :=
  ⟨v ++ ys, by rw [h, List.append_assoc]⟩

/-- One exploration run only appends to the path and the exploration data of
the maze it is given; nothing is cleared. -/
lemma exploreAux_append (goal : Int × Int) :
    ∀ (fuel : Nat) (m : Maze) (r : Runner) (num : Nat) (acts : String)
      (m1 : Maze) (r1 : Runner) (a1 : String),
      exploreAux goal fuel m r num acts = some (m1, r1, a1) →
      (∃ tl, m1.path = m.path ++ tl) ∧
        (∃ tl, m1.exploration_data = m.exploration_data ++ tl) := by
  intro fuel
  induction fuel with
  | zero =>
    intro m r num acts m1 r1 a1 hrun
    simp only [exploreAux] at hrun
    split at hrun
    · simp only [Option.some.injEq, Prod.mk.injEq] at hrun
      obtain ⟨hm, -, -⟩ := hrun
      subst hm
      exact ⟨⟨_, rfl⟩, ⟨[], (List.append_nil _).symm⟩⟩
    · exact absurd hrun (by simp)
  | succ n ih =>
    intro m r num acts m1 r1 a1 hrun
    simp only [exploreAux] at hrun
    split at hrun
    · simp only [Option.some.injEq, Prod.mk.injEq] at hrun
      obtain ⟨hm, -, -⟩ := hrun
      subst hm
      exact ⟨⟨_, rfl⟩, ⟨[], (List.append_nil _).symm⟩⟩
    · split at hrun
      · exact absurd hrun (by simp)
      · obtain ⟨⟨t1, ht1⟩, ⟨t2, ht2⟩⟩ := ih _ _ _ _ _ _ _ hrun
        exact ⟨append_chain ht1, append_chain ht2⟩

/-- One exploration run never changes the wall sets or the dimensions. -/
lemma exploreAux_walls (goal : Int × Int) :
    ∀ (fuel : Nat) (m : Maze) (r : Runner) (num : Nat) (acts : String)
      (m1 : Maze) (r1 : Runner) (a1 : String),
      exploreAux goal fuel m r num acts = some (m1, r1, a1) →
      m1.h_walls = m.h_walls ∧ m1.v_walls = m.v_walls := by
  intro fuel
  induction fuel with
  | zero =>
    intro m r num acts m1 r1 a1 hrun
    simp only [exploreAux] at hrun
    split at hrun
    · simp only [Option.some.injEq, Prod.mk.injEq] at hrun
      obtain ⟨hm, -, -⟩ := hrun
      subst hm
      exact ⟨rfl, rfl⟩
    · exact absurd hrun (by simp)
  | succ n ih =>
    intro m r num acts m1 r1 a1 hrun
    simp only [exploreAux] at hrun
    split at hrun
    · simp only [Option.some.injEq, Prod.mk.injEq] at hrun
      obtain ⟨hm, -, -⟩ := hrun
      subst hm
      exact ⟨rfl, rfl⟩
    · split at hrun
      · exact absurd hrun (by simp)
      · have hw := ih _ _ _ _ _ _ _ hrun
        exact hw

/-- C9: on a freshly constructed 1×1 maze the start equals the goal, so
exploration terminates at once with the one-element trace [(0, 0)], an empty
action sequence and no recorded move, and `shortest_path` returns the
one-element path [(0, 0)]. -/
theorem C9_start_equals_goal (fuel : Nat) :
    explore (mkMaze 1 1) (create_runner 0 0 Orientation.N) (0, 0) fuel =
      some ({ mkMaze 1 1 with path := [(0, 0)] },
        create_runner 0 0 Orientation.N, "") ∧
    shortest_path (mkMaze 1 1) none none fuel =
      some ({ mkMaze 1 1 with path := [(0, 0)] }, [(0, 0)]) ∧
    ({ mkMaze 1 1 with path := [(0, 0)] }).exploration_data =
      (mkMaze 1 1).exploration_data := by
  cases fuel <;> exact ⟨rfl, rfl, rfl⟩

/-- C10: the trace and data buffers are initialized only at construction —
a fresh maze has an empty path and only the header row — and exploration
only appends to them, so a second exploration of the same maze object
processes a trace that still starts with the first run's coordinates. On the
concrete 1×2 maze, the first `shortest_path` call returns [(0,0), (0,1)] but
a second call on the maze it returns processes the contaminated trace
[(0,0), (0,1), (0,0), (0,1)] and returns [(0,0)], no longer ending at the
goal. -/
theorem C10_buffers_persist (w h : Int) (m m1 : Maze) (r r1 : Runner)
    (g : Int × Int) (a1 : String) (fuel : Nat)
    (hex : explore m r g fuel = some (m1, r1, a1)) :
    (mkMaze w h).path = [] ∧
    (mkMaze w h).exploration_data =
      [("Step", "x-coordinate", "y-coordinate", "Actions")] ∧
    (∃ tl, m1.path = m.path ++ tl) ∧
    (∃ tl, m1.exploration_data = m.exploration_data ++ tl) ∧
    (shortest_path (mkMaze 1 2) none none 5).map Prod.snd =
      some [(0, 0), (0, 1)] ∧
    ((shortest_path (mkMaze 1 2) none none 5).bind fun res =>
        shortest_path res.1 none none 5).map Prod.snd = some [(0, 0)] := by
  obtain ⟨hp, hd⟩ := exploreAux_append g fuel m r 0 "" m1 r1 a1 hex
  exact ⟨rfl, rfl, hp, hd, by decide, by decide⟩

/-- C10 witness: a zero-fuel exploration of the 1×1 maze (start equals goal)
instantiates the appending property at a concrete run. -/
theorem C10_witness :
    (mkMaze 1 1).path = [] ∧
    (mkMaze 1 1).exploration_data =
      [("Step", "x-coordinate", "y-coordinate", "Actions")] ∧
    (∃ tl, ({ mkMaze 1 1 with path := [(0, 0)] }).path = (mkMaze 1 1).path ++ tl) ∧
    (∃ tl, ({ mkMaze 1 1 with path := [(0, 0)] }).exploration_data =
      (mkMaze 1 1).exploration_data ++ tl) ∧
    (shortest_path (mkMaze 1 2) none none 5).map Prod.snd =
      some [(0, 0), (0, 1)] ∧
    ((shortest_path (mkMaze 1 2) none none 5).bind fun res =>
        shortest_path res.1 none none 5).map Prod.snd = some [(0, 0)] :=
  C10_buffers_persist 1 1 (mkMaze 1 1) { mkMaze 1 1 with path := [(0, 0)] }
    (create_runner 0 0 Orientation.N) (create_runner 0 0 Orientation.N)
    (0, 0) "" 0 rfl

/-- C7: for dimensions at least 1 the four boundary wall lines are present
after construction — the vertical lines 0 and width for every cell row and
the horizontal lines 0 and height for every cell column — and they remain
present after every operation: wall insertion only inserts into the chosen
set and leaves the other unchanged, and exploration never touches the wall
sets. An out-of-range insertion leaves both wall sets unchanged and raises
no error. -/
theorem C7_boundary_invariant (w h i j x l y v : Int) (m : Maze)
    (_hw : 1 ≤ w) (_hh : 1 ≤ h) (hi0 : 0 ≤ i) (hih : i < h)
    (hj0 : 0 ≤ j) (hjw : j < w)
    (hx : ¬(0 ≤ x ∧ x < m.width ∧ 1 ≤ l ∧ l < m.height))
    (hy : ¬(0 ≤ y ∧ y < m.height ∧ 1 ≤ v ∧ v < m.width)) :
    ((0, i) ∈ (mkMaze w h).v_walls ∧ (w, i) ∈ (mkMaze w h).v_walls ∧
      (j, (0 : Int)) ∈ (mkMaze w h).h_walls ∧ (j, h) ∈ (mkMaze w h).h_walls) ∧
    (add_horizontal_wall m x l = m ∧ add_vertical_wall m y v = m) ∧
    (∀ (a b : Int), m.h_walls ⊆ (add_horizontal_wall m a b).h_walls ∧
      (add_horizontal_wall m a b).v_walls = m.v_walls ∧
      m.v_walls ⊆ (add_vertical_wall m a b).v_walls ∧
      (add_vertical_wall m a b).h_walls = m.h_walls) ∧
    (∀ (g : Int × Int) (r : Runner) (fuel : Nat) (m1 : Maze) (r1 : Runner)
      (a1 : String), explore m r g fuel = some (m1, r1, a1) →
      m1.h_walls = m.h_walls ∧ m1.v_walls = m.v_walls) := by
  refine ⟨⟨?_, ?_, ?_, ?_⟩, ⟨?_, ?_⟩, ?_, ?_⟩
  · simp only [mkMaze, Finset.mem_union, Finset.mem_image, Finset.mem_range]
    exact Or.inl ⟨i.toNat, by omega, by simp [Int.toNat_of_nonneg hi0]⟩
  · simp only [mkMaze, Finset.mem_union, Finset.mem_image, Finset.mem_range]
    exact Or.inr ⟨i.toNat, by omega, by simp [Int.toNat_of_nonneg hi0]⟩
  · simp only [mkMaze, Finset.mem_union, Finset.mem_image, Finset.mem_range]
    exact Or.inl ⟨j.toNat, by omega, by simp [Int.toNat_of_nonneg hj0]⟩
  · simp only [mkMaze, Finset.mem_union, Finset.mem_image, Finset.mem_range]
    exact Or.inr ⟨j.toNat, by omega, by simp [Int.toNat_of_nonneg hj0]⟩
  · unfold add_horizontal_wall
    rw [if_neg hx]
  · unfold add_vertical_wall
    rw [if_neg hy]
  · intro a b
    unfold add_horizontal_wall add_vertical_wall
    refine ⟨?_, ?_, ?_, ?_⟩ <;> split <;> simp [Finset.subset_insert]
  · intro g r fuel m1 r1 a1 hex
    exact exploreAux_walls g fuel m r 0 "" m1 r1 a1 hex

/-- C7 witness: the 1×1 maze with the out-of-range insertions at
x-coordinate -1 (horizontal) and y-coordinate -1 (vertical). -/
theorem C7_witness :
    (((0 : Int), (0 : Int)) ∈ (mkMaze 1 1).v_walls ∧
      ((1 : Int), (0 : Int)) ∈ (mkMaze 1 1).v_walls ∧
      ((0 : Int), (0 : Int)) ∈ (mkMaze 1 1).h_walls ∧
      ((0 : Int), (1 : Int)) ∈ (mkMaze 1 1).h_walls) ∧
    (add_horizontal_wall (mkMaze 1 1) (-1) 1 = mkMaze 1 1 ∧
      add_vertical_wall (mkMaze 1 1) (-1) 1 = mkMaze 1 1) ∧
    (∀ (a b : Int),
      (mkMaze 1 1).h_walls ⊆ (add_horizontal_wall (mkMaze 1 1) a b).h_walls ∧
      (add_horizontal_wall (mkMaze 1 1) a b).v_walls = (mkMaze 1 1).v_walls ∧
      (mkMaze 1 1).v_walls ⊆ (add_vertical_wall (mkMaze 1 1) a b).v_walls ∧
      (add_vertical_wall (mkMaze 1 1) a b).h_walls = (mkMaze 1 1).h_walls) ∧
    (∀ (g : Int × Int) (r : Runner) (fuel : Nat) (m1 : Maze) (r1 : Runner)
      (a1 : String), explore (mkMaze 1 1) r g fuel = some (m1, r1, a1) →
      m1.h_walls = (mkMaze 1 1).h_walls ∧ m1.v_walls = (mkMaze 1 1).v_walls) :=
  C7_boundary_invariant 1 1 0 0 (-1) 1 (-1) 1 (mkMaze 1 1) (by decide) (by decide)
    (by decide) (by decide) (by decide) (by decide) (by decide) (by decide)

end MazeRunner
